import Mathlib

/-!
Shallow embedding of the TorresjDev/Python-Sound-Wave-Analysis repository
(src/sound_analysis/tools.py, analyzer.py, audio_processing.py, plotly_viz.py)
together with theorems settling the specification claims.

Waveforms (numpy arrays of samples) are embedded as `List ℝ` (or `List ℤ`
for the raw int16 frames read from a WAV file).  Fallible numpy reductions
(`np.max` / `np.min` on possibly-empty arrays raise `ValueError`) are
embedded in the `Except String` monad.  `np.log10` is `Real.logb 10`,
`np.sqrt` is `Real.sqrt`, and `np.fft.fft` is the textbook discrete Fourier
transform over `ℂ`.
-/

open scoped BigOperators

namespace SoundWave

/-! ### numpy primitives -/

/-- `np.mean` of a 1-d array: sum divided by length (junk value `0` on the
empty array, where numpy returns NaN). -/
noncomputable def np_mean (l : List ℝ) : ℝ := l.sum / l.length

/-- `np.max` of a 1-d array; raises `ValueError` on a zero-size array. -/
noncomputable def np_max (l : List ℝ) : Except String ℝ :=
  match l.max? with
  | none => .error "zero-size array to reduction operation maximum"
  | some m => .ok m

/-- `np.min` of a 1-d array; raises `ValueError` on a zero-size array. -/
noncomputable def np_min (l : List ℝ) : Except String ℝ :=
  match l.min? with
  | none => .error "zero-size array to reduction operation minimum"
  | some m => .ok m

/-! ### tools.py -/

/-- `tools.wave_to_db`: `10 * log10(mean(waveform**2) / 1e-6)`. -/
noncomputable def wave_to_db (waveform : List ℝ) : ℝ :=
  let sq_amplitude := waveform.map (fun x => x ^ 2)
  let mean_squared_amplitude := np_mean sq_amplitude
  10 * Real.logb 10 (mean_squared_amplitude / 1e-6)

/-- `tools.wave_to_db_rms`: `20 * log10(sqrt(mean(waveform**2)) / 1e-6)`. -/
noncomputable def wave_to_db_rms (waveform : List ℝ) : ℝ :=
  let sq_amplitude := np_mean (waveform.map (fun x => x ^ 2))
  let rms_value := Real.sqrt sq_amplitude
  20 * Real.logb 10 (rms_value / 1e-6)

/-- Result record of `tools.detect_db_range`.  The dB fields live in `EReal`
because the source puts `-np.inf` in them when the corresponding amplitude
is zero. -/
structure DbRange where
  max_db : EReal
  min_db : EReal
  dynamic_range : EReal

/-- `tools.detect_db_range`.  `np.min(np.abs(waveform[waveform != 0]))`
raises on an all-zero waveform (empty selection); `np.max(np.abs(waveform))`
raises on an empty waveform. -/
noncomputable def detect_db_range (waveform : List ℝ) : Except String DbRange :=
  match np_max (waveform.map (fun x => |x|)) with
  | .error e => .error e
  | .ok max_amplitude =>
    match np_min ((waveform.filter (fun x => x ≠ 0)).map (fun x => |x|)) with
    | .error e => .error e
    | .ok min_amplitude =>
      let max_db : EReal := if 0 < max_amplitude then ((20 * Real.logb 10 (max_amplitude / 1e-6) : ℝ) : EReal) else ⊥
      let min_db : EReal := if 0 < min_amplitude then ((20 * Real.logb 10 (min_amplitude / 1e-6) : ℝ) : EReal) else ⊥
      let dynamic_range : EReal := if min_db ≠ ⊥ then max_db - min_db else 0
      .ok ⟨max_db, min_db, dynamic_range⟩

/-- `tools.normalize_waveform`: divide by the maximum absolute value when it
is positive, otherwise return the waveform unchanged.  `np.max` raises on an
empty waveform. -/
noncomputable def normalize_waveform (waveform : List ℝ) : Except String (List ℝ) :=
  match np_max (waveform.map (fun x => |x|)) with
  | .error e => .error e
  | .ok max_val =>
    if 0 < max_val then .ok (waveform.map (fun x => x / max_val))
    else .ok waveform

/-! ### analyzer.py -/

/-- Result record of `analyzer.analyze_audio_levels`. -/
structure AudioLevels where
  max_amplitude : ℝ
  min_amplitude : ℝ
  mean_amplitude : ℝ
  avg_db : ℝ
  rms_db : ℝ
  db_range : DbRange

/-- `analyzer.analyze_audio_levels`: basic statistics, the two dB measures
and the dB range of a waveform. -/
noncomputable def analyze_audio_levels (waveform : List ℝ) : Except String AudioLevels :=
  match np_max (waveform.map (fun x => |x|)) with
  | .error e => .error e
  | .ok max_amplitude =>
    match np_min (waveform.map (fun x => |x|)) with
    | .error e => .error e
    | .ok min_amplitude =>
      match detect_db_range waveform with
      | .error e => .error e
      | .ok db_range =>
        .ok ⟨max_amplitude, min_amplitude, np_mean (waveform.map (fun x => |x|)),
          wave_to_db waveform, wave_to_db_rms waveform, db_range⟩

/-- `audio_data[0::2]`: every second element of a list, starting at index 0
(numpy strided slicing, used to take the left channel of interleaved stereo
frames). -/
def everyOther {α : Type} : List α → List α
  | [] => []
  | [x] => [x]
  | x :: _ :: rest => x :: everyOther rest

/-- The number of samples `np.frombuffer(raw_data, dtype=np.int16)` decodes
from the raw frame buffer of a WAV file: the buffer holds
`frames * channels * sample_width` bytes and is reinterpreted as 16-bit
samples regardless of the file's actual sample width, giving half that many
entries (numpy raises on an odd byte count; integer division gives the
even-count result, which is all this development evaluates). -/
def frombuffer_int16_count (frames channels sample_width : ℕ) : ℕ :=
  frames * channels * sample_width / 2

/-- The waveform produced by `analyzer.load_wave_data` from the int16-decoded
samples of a WAV file: all samples when `channels == 1`, otherwise
`audio_data[0::2]`. -/
def load_waveform (channels : ℕ) (audio_data : List ℤ) : List ℤ :=
  if channels = 1 then audio_data else everyOther audio_data

/-- The calls `perform_complete_analysis` makes into the analysis and
plotting layers, in source order. -/
inductive Step where
  | getWaveInfo
  | loadWaveData
  | analyzeAudioLevels
  | detectHarmonics
  | applyFilter
  | plotWaveform
  | plotSpectrogram
  deriving DecidableEq

/-- `analyzer.get_wave_info` result record. -/
structure WaveInfo where
  sample_rate : ℕ
  total_samples : ℕ
  channels : ℕ
  sample_width : ℕ
  duration : ℝ
  channel_type : String

/-- `analyzer.load_wave_data` result record. -/
structure WaveData where
  waveform : List ℝ
  sample_rate : ℕ
  duration : ℝ
  channels : ℕ

/-- The dictionary returned by `analyzer.perform_complete_analysis` on
success. -/
structure AnalysisResult where
  file_info : WaveInfo
  wave_data : WaveData
  audio_levels : AudioLevels

/-- Observable outcome of one run of `perform_complete_analysis`: the
returned value (`None` on failure), the messages printed, and the trace of
analysis/plotting calls that were executed. -/
structure RunOutput where
  result : Option AnalysisResult
  printed : List String
  trace : List Step

/-- `analyzer.perform_complete_analysis`.  The two file reads
(`get_wave_info`, `load_wave_data`) are environment inputs, modelled as
`Except` values; the whole body is wrapped in `try/except`, so the first
failing step short-circuits to the `except` branch, which prints the error
message and returns `None`. -/
noncomputable def perform_complete_analysis (info : Except String WaveInfo)
    (data : Except String WaveData) (show_plots save_figures : Bool) : RunOutput :=
  match info with
  | .error e => ⟨none, ["Error analyzing file: " ++ e], [Step.getWaveInfo]⟩
  | .ok fi =>
    match data with
    | .error e => ⟨none, ["Error analyzing file: " ++ e], [Step.getWaveInfo, Step.loadWaveData]⟩
    | .ok wd =>
      match analyze_audio_levels wd.waveform with
      | .error e => ⟨none, ["Error analyzing file: " ++ e],
          [Step.getWaveInfo, Step.loadWaveData, Step.analyzeAudioLevels]⟩
      | .ok levels =>
        ⟨some ⟨fi, wd, levels⟩,
         ["Analysis Results", "Analysis completed!"],
         [Step.getWaveInfo, Step.loadWaveData, Step.analyzeAudioLevels] ++
           (if show_plots then [Step.plotWaveform, Step.plotSpectrogram] else [])⟩

/-- The first exception raised along the pipeline of
`perform_complete_analysis`, if any. -/
noncomputable def pipeline_error (info : Except String WaveInfo)
    (data : Except String WaveData) : Option String :=
  match info with
  | .error e => some e
  | .ok _ =>
    match data with
    | .error e => some e
    | .ok wd =>
      match analyze_audio_levels wd.waveform with
      | .error e => some e
      | .ok _ => none

/-! ### audio_processing.py: Butterworth filter wrappers

`scipy.signal.butter` / `filtfilt` are external library calls; the wrappers
are embedded parametrically in the filter they would apply. -/

/-- `audio_processing.apply_lowpass_filter`.  `butter_filtfilt` stands for
the scipy design-and-apply step (arguments: order, normalized cutoff,
waveform). -/
noncomputable def apply_lowpass_filter (butter_filtfilt : ℕ → ℝ → List ℝ → List ℝ)
    (waveform : List ℝ) (sample_rate cutoff_freq : ℝ) (order : ℕ) : List ℝ :=
  let nyquist := sample_rate / 2
  let normalized_cutoff := cutoff_freq / nyquist
  if 1 ≤ normalized_cutoff then waveform
  else butter_filtfilt order normalized_cutoff waveform

/-- `audio_processing.apply_highpass_filter`. -/
noncomputable def apply_highpass_filter (butter_filtfilt : ℕ → ℝ → List ℝ → List ℝ)
    (waveform : List ℝ) (sample_rate cutoff_freq : ℝ) (order : ℕ) : List ℝ :=
  let nyquist := sample_rate / 2
  let normalized_cutoff := cutoff_freq / nyquist
  if normalized_cutoff ≤ 0 then waveform
  else butter_filtfilt order normalized_cutoff waveform

/-! ### audio_processing.py: detect_harmonics -/

/-- `np.fft.fftfreq n d`: the sample frequencies
`[0, 1, ..., ⌈n/2⌉-1, -⌊n/2⌋, ..., -1] / (d*n)`. -/
noncomputable def fftfreq (n : ℕ) (d : ℝ) : List ℝ :=
  (List.range n).map (fun k => (if k < (n + 1) / 2 then (k : ℝ) else (k : ℝ) - n) / (d * n))

/-- Entry `k` of `np.fft.fft waveform`: `∑ n, w[n] * exp(-2πi·k·n/N)`. -/
noncomputable def fftEntry (w : List ℝ) (k : ℕ) : ℂ :=
  ∑ n ∈ Finset.range w.length,
    ((w.getD n 0 : ℝ) : ℂ) * Complex.exp (-(2 * (Real.pi : ℂ) * Complex.I) * k * n / w.length)

/-- `np.fft.fft`. -/
noncomputable def npfft (w : List ℝ) : List ℂ :=
  (List.range w.length).map (fftEntry w)

/-- The `freqs[positive_mask]` / `magnitude[positive_mask]` arrays of
`detect_harmonics`, zipped into `(frequency, magnitude)` pairs. -/
noncomputable def posPairs (w : List ℝ) (sample_rate : ℝ) : List (ℝ × ℝ) :=
  ((fftfreq w.length (1 / sample_rate)).zip ((npfft w).map (fun z => Complex.abs z))).filter
    (fun p => 0 < p.1)

/-- The positive FFT frequencies seen by `detect_harmonics`. -/
noncomputable def posFreqs (w : List ℝ) (sample_rate : ℝ) : List ℝ :=
  (posPairs w sample_rate).map Prod.fst

/-- The magnitudes at the positive FFT frequencies. -/
noncomputable def posMags (w : List ℝ) (sample_rate : ℝ) : List ℝ :=
  (posPairs w sample_rate).map Prod.snd

/-- Inner loop of scipy `_local_maxima_1d`: advance `j` across the plateau
of samples equal to `v`, stopping before `x.length - 1`. -/
noncomputable def plateauEnd (x : List ℝ) (v : ℝ) : ℕ → ℕ → ℕ
  | 0, j => j
  | fuel + 1, j => if j + 1 < x.length ∧ x.getD j 0 = v then plateauEnd x v fuel (j + 1) else j

/-- Main loop of scipy `_local_maxima_1d`, scanning `i` from 1 while
`i < x.length - 1`: a maximum is a sample strictly above its left neighbour
whose plateau ends in a strict fall; its midpoint index is recorded.  The
fuel argument bounds the iteration count (the scan advances `i` every step,
so `x.length` fuel is never exhausted). -/
noncomputable def lmScan (x : List ℝ) : ℕ → ℕ → List ℕ
  | 0, _ => []
  | fuel + 1, i =>
    if i + 1 < x.length then
      if x.getD (i - 1) 0 < x.getD i 0 then
        let ahead := plateauEnd x (x.getD i 0) x.length (i + 1)
        if x.getD ahead 0 < x.getD i 0 then
          (i + (ahead - 1)) / 2 :: lmScan x fuel (ahead + 1)
        else
          lmScan x fuel (i + 1)
      else
        lmScan x fuel (i + 1)
    else []

/-- scipy `_local_maxima_1d`, the peak locator behind
`scipy.signal.find_peaks`. -/
noncomputable def localMaxima (x : List ℝ) : List ℕ := lmScan x x.length 1

/-- Insert an `(index, value)` pair into an ascending run, after every pair
of strictly smaller value (stable on ties). -/
noncomputable def insertAsc (p : ℕ × ℝ) : List (ℕ × ℝ) → List (ℕ × ℝ)
  | [] => [p]
  | q :: qs => if q.2 < p.2 then q :: insertAsc p qs else p :: q :: qs

/-- Stable insertion sort of `(index, value)` pairs by ascending value. -/
noncomputable def isortAsc : List (ℕ × ℝ) → List (ℕ × ℝ)
  | [] => []
  | p :: ps => insertAsc p (isortAsc ps)

/-- `np.argsort` (ascending; stable on ties, which agrees with numpy
whenever the keys are distinct, as they are wherever this development
evaluates it). -/
noncomputable def argsort (l : List ℝ) : List ℕ :=
  (isortAsc l.enum).map Prod.fst

/-- One entry of the list returned by `detect_harmonics`. -/
structure Harmonic where
  frequency : ℝ
  magnitude_db : ℝ

/-- `audio_processing.detect_harmonics`: FFT the waveform, keep the
positive-frequency half, find the magnitude peaks at least 1% of the
maximum magnitude, sort them by descending magnitude and return the top
`num_harmonics` as `(frequency, magnitude_db)` records.  `np.max` raises on
an empty positive-frequency spectrum. -/
noncomputable def detect_harmonics (waveform : List ℝ) (sample_rate : ℝ)
    (num_harmonics : ℕ) : Except String (List Harmonic) :=
  let freqs := posFreqs waveform sample_rate
  let magnitude := posMags waveform sample_rate
  match np_max magnitude with
  | .error e => .error e
  | .ok maxMag =>
    let peaks := (localMaxima magnitude).filter (fun i => maxMag * 0.01 ≤ magnitude.getD i 0)
    if peaks = [] then .ok []
    else
      let peak_magnitudes := peaks.map (fun i => magnitude.getD i 0)
      let sorted_indices := (argsort peak_magnitudes).reverse
      .ok ((sorted_indices.take num_harmonics).map (fun i =>
        ⟨freqs.getD (peaks.getD i 0) 0,
         20 * Real.logb 10 (peak_magnitudes.getD i 0 / maxMag + 1e-10)⟩))

/-- The lowest frequency among a list of returned harmonics (the
"fundamental frequency" of the claim); junk `0` on the empty list. -/
noncomputable def fundamentalFreq (hs : List Harmonic) : ℝ :=
  ((hs.map Harmonic.frequency).min?).getD 0

/-- Sixteen samples of `2·cos(2π·2t/16) + cos(2π·5t/16)` at `t = 0..15`:
one second of a 2 Hz tone plus a weaker 5 Hz tone, sampled at 16 Hz. -/
noncomputable def w16 : List ℝ :=
  (List.range 16).map (fun n : ℕ =>
    2 * Real.cos (2 * Real.pi * 2 * n / 16) + Real.cos (2 * Real.pi * 5 * n / 16))

/-! ### plotly_viz.py -/

/-- A Plotly figure, abstracted to the data that distinguishes the six
constructors: its title. -/
structure Figure where
  title : String

/-- `plotly_viz.create_waveform_plot`. -/
def create_waveform_plot (waveform : List ℝ) (sample_rate : ℕ) (duration : ℝ)
    (title : String) : Figure := ⟨title⟩

/-- `plotly_viz.create_frequency_spectrum_plot`. -/
def create_frequency_spectrum_plot (waveform : List ℝ) (sample_rate : ℕ)
    (title : String) : Figure := ⟨title⟩

/-- `plotly_viz.create_spectrogram_plot`. -/
def create_spectrogram_plot (waveform : List ℝ) (sample_rate : ℕ)
    (title : String) : Figure := ⟨title⟩

/-- `plotly_viz.create_psd_plot`. -/
def create_psd_plot (waveform : List ℝ) (sample_rate : ℕ)
    (title : String) : Figure := ⟨title⟩

/-- `plotly_viz.create_phase_plot`. -/
def create_phase_plot (waveform : List ℝ) (sample_rate : ℕ)
    (title : String) : Figure := ⟨title⟩

/-- `plotly_viz.create_histogram_plot`. -/
def create_histogram_plot (waveform : List ℝ) (title : String) : Figure := ⟨title⟩

/-- `plotly_viz.create_all_visualizations`: the dictionary of the six
figures, keyed by name, in source order. -/
def create_all_visualizations (waveform : List ℝ) (sample_rate : ℕ)
    (duration : ℝ) (filename : String) : List (String × Figure) :=
  [("waveform", create_waveform_plot waveform sample_rate duration ("Waveform - " ++ filename)),
   ("spectrum", create_frequency_spectrum_plot waveform sample_rate ("Frequency Spectrum - " ++ filename)),
   ("spectrogram", create_spectrogram_plot waveform sample_rate ("Spectrogram - " ++ filename)),
   ("psd", create_psd_plot waveform sample_rate ("Power Spectral Density - " ++ filename)),
   ("phase", create_phase_plot waveform sample_rate ("Phase Response - " ++ filename)),
   ("histogram", create_histogram_plot waveform ("Amplitude Distribution - " ++ filename))]

/-! ## Helper lemmas -/

/-- `List.max?` on reals: characterisation as greatest member. -/
lemma real_max?_eq_some_iff {l : List ℝ} {a : ℝ} :
    l.max? = some a ↔ a ∈ l ∧ ∀ b ∈ l, b ≤ a := by
  haveI : Std.Antisymm ((· : ℝ) ≤ ·) := ⟨fun h h' => le_antisymm h h'⟩
  exact List.max?_eq_some_iff (fun _ => le_refl _) (fun a b => max_choice a b)
    (fun _ _ _ => max_le_iff)

/-- `List.min?` on reals: characterisation as least member. -/
lemma real_min?_eq_some_iff {l : List ℝ} {a : ℝ} :
    l.min? = some a ↔ a ∈ l ∧ ∀ b ∈ l, a ≤ b := by
  haveI : Std.Antisymm ((· : ℝ) ≤ ·) := ⟨fun h h' => le_antisymm h h'⟩
  exact List.min?_eq_some_iff (fun _ => le_refl _) (fun a b => min_choice a b)
    (fun _ _ _ => le_min_iff)

/-- The two dB measures of tools.py differ by the constant 60 dB whenever
the mean squared amplitude is positive: the `1e-6` reference is applied to
the RMS value in one and to the mean square in the other. -/
lemma db_shift_lemma (w : List ℝ) (h : 0 < np_mean (w.map (fun x => x ^ 2))) :
    wave_to_db_rms w = wave_to_db w + 60 := by
  have h10 : (0:ℝ) < Real.log 10 := Real.log_pos (by norm_num)
  have h10' : Real.log 10 ≠ 0 := ne_of_gt h10
  have hm : np_mean (w.map (fun x => x ^ 2)) ≠ 0 := ne_of_gt h
  have hs : Real.sqrt (np_mean (w.map (fun x => x ^ 2))) ≠ 0 :=
    ne_of_gt (Real.sqrt_pos.mpr h)
  have h6 : Real.log 1e-6 = -(6 * Real.log 10) := by
    have he : (1e-6 : ℝ) = ((10:ℝ) ^ (6:ℕ))⁻¹ := by norm_num
    rw [he, Real.log_inv, Real.log_pow]
    push_cast
    ring
  simp only [wave_to_db_rms, wave_to_db, Real.logb]
  rw [Real.log_div hs (by norm_num), Real.log_div hm (by norm_num),
    Real.log_sqrt h.le, h6]
  field_simp
  ring

/-- `analyze_audio_levels` succeeds on the one-sample waveform `[1]`. -/
lemma analyze_one : ∃ r, analyze_audio_levels [(1:ℝ)] = .ok r := by
  simp [analyze_audio_levels, detect_db_range, np_max, np_min, np_mean,
    List.max?, List.min?]

/-! ## C3: the two dB measures -/

/-- C3 (amended): `wave_to_db` and `wave_to_db_rms` measure the same
logarithmic level only up to a constant offset: for every waveform with
positive mean squared amplitude, `wave_to_db_rms w = wave_to_db w + 60`;
they are not equal. -/
theorem wave_to_db_rms_eq_wave_to_db_add_sixty (w : List ℝ)
    (h : 0 < np_mean (w.map (fun x => x ^ 2))) :
    wave_to_db_rms w = wave_to_db w + 60 :=
  db_shift_lemma w h

/-- C3 counterexample: the waveform `[1]` has positive mean squared
amplitude, yet `wave_to_db [1] ≠ wave_to_db_rms [1]` (they differ by
60 dB), refuting the claimed equality. -/
theorem wave_to_db_ne_wave_to_db_rms :
    0 < np_mean ([(1:ℝ)].map (fun x => x ^ 2)) ∧
      wave_to_db [(1:ℝ)] ≠ wave_to_db_rms [(1:ℝ)] := by
  have hpos : 0 < np_mean ([(1:ℝ)].map (fun x => x ^ 2)) := by
    simp [np_mean]
  refine ⟨hpos, fun heq => ?_⟩
  have := db_shift_lemma [(1:ℝ)] hpos
  rw [← heq] at this
  linarith

/-- C3 witness: the amended statement evaluated at the waveform `[1]`. -/
theorem wave_to_db_rms_witness :
    0 < np_mean ([(1:ℝ)].map (fun x => x ^ 2)) ∧
      wave_to_db_rms [(1:ℝ)] = wave_to_db [(1:ℝ)] + 60 :=
  ⟨by simp [np_mean], wave_to_db_rms_eq_wave_to_db_add_sixty [(1:ℝ)] (by simp [np_mean])⟩

/-! ## C6: the six visualizations -/

/-- C6: for every waveform, sample rate, duration and filename,
`create_all_visualizations` returns exactly the six visualizations the spec
names, keyed `waveform`, `spectrum`, `spectrogram`, `psd`, `phase` and
`histogram`, in that order. -/
theorem create_all_visualizations_exactly_six (w : List ℝ) (sr : ℕ) (d : ℝ)
    (f : String) :
    (create_all_visualizations w sr d f).map Prod.fst =
      ["waveform", "spectrum", "spectrogram", "psd", "phase", "histogram"] := rfl

/-! ## C10: out-of-range Butterworth cutoffs -/

/-- C10: whatever filter scipy would design, `apply_lowpass_filter` returns
its input unchanged whenever `cutoff_freq ≥ sample_rate / 2`, and
`apply_highpass_filter` returns its input unchanged whenever
`cutoff_freq ≤ 0`; both guards short-circuit before any scipy call, so no
error is raised. -/
theorem butterworth_out_of_range_identity
    (bf bf' : ℕ → ℝ → List ℝ → List ℝ) (w : List ℝ)
    (sample_rate cutoff_freq : ℝ) (order : ℕ) (hsr : 0 < sample_rate) :
    (sample_rate / 2 ≤ cutoff_freq →
      apply_lowpass_filter bf w sample_rate cutoff_freq order = w) ∧
    (cutoff_freq ≤ 0 →
      apply_highpass_filter bf' w sample_rate cutoff_freq order = w) := by
  have hn : 0 < sample_rate / 2 := by linarith
  constructor
  · intro h
    simp only [apply_lowpass_filter]
    rw [if_pos ((one_le_div hn).mpr h)]
  · intro h
    simp only [apply_highpass_filter]
    rw [if_pos (div_nonpos_iff.mpr (Or.inr ⟨h, hn.le⟩))]

/-- C10 witness: with a deliberately non-identity stand-in for the scipy
filter, a cutoff at the Nyquist frequency (low-pass) and a cutoff of zero
(high-pass) both return the waveform unchanged. -/
theorem butterworth_out_of_range_witness :
    apply_lowpass_filter (fun _ _ l => 0 :: l) [1] 2 1 5 = [1] ∧
    apply_highpass_filter (fun _ _ l => 0 :: l) [1] 2 0 5 = [1] :=
  ⟨(butterworth_out_of_range_identity (fun _ _ l => 0 :: l) (fun _ _ l => 0 :: l)
      [1] 2 1 5 (by norm_num)).1 (by norm_num),
   (butterworth_out_of_range_identity (fun _ _ l => 0 :: l) (fun _ _ l => 0 :: l)
      [1] 2 0 5 (by norm_num)).2 (by norm_num)⟩

/-! ## C4: exception handling in perform_complete_analysis -/

/-- C4: `perform_complete_analysis` never propagates an exception: it
returns `None` exactly when some step of the pipeline raises, and in that
case the (first) error message is printed. -/
theorem perform_complete_analysis_catches_errors (info : Except String WaveInfo)
    (data : Except String WaveData) (sp sf : Bool) :
    ((perform_complete_analysis info data sp sf).result = none ↔
      pipeline_error info data ≠ none) ∧
    (∀ e, pipeline_error info data = some e →
      (perform_complete_analysis info data sp sf).printed =
        ["Error analyzing file: " ++ e]) := by
  rcases info with e | fi
  · simp [perform_complete_analysis, pipeline_error]
  rcases data with e | wd
  · simp [perform_complete_analysis, pipeline_error]
  rcases h : analyze_audio_levels wd.waveform with e | lv
  · simp [perform_complete_analysis, pipeline_error, h]
  · simp [perform_complete_analysis, pipeline_error, h]

/-- C4 witness: a failing `get_wave_info` read produces `None` and the
printed error message. -/
theorem perform_complete_analysis_catches_errors_witness :
    (perform_complete_analysis (.error "boom") (.ok ⟨[1], 16, 1, 1⟩) true false).printed =
      ["Error analyzing file: boom"] :=
  (perform_complete_analysis_catches_errors (.error "boom") (.ok ⟨[1], 16, 1, 1⟩)
    true false).2 "boom" rfl

/-! ## C2: the pipeline executed by perform_complete_analysis -/

/-- C2 (amended): on a successful run, `perform_complete_analysis` executes
`get_wave_info`, then `load_wave_data`, then `analyze_audio_levels`, then
(exactly when `show_plots` is set) the waveform and spectrogram plots; it
never invokes harmonic detection or filtering — those steps belong to the
dashboard path, not to this function. -/
theorem perform_complete_analysis_pipeline (info : Except String WaveInfo)
    (data : Except String WaveData) (sp sf : Bool) :
    (∀ fi wd lv, info = .ok fi → data = .ok wd →
      analyze_audio_levels wd.waveform = .ok lv →
      (perform_complete_analysis info data sp sf).trace =
        [Step.getWaveInfo, Step.loadWaveData, Step.analyzeAudioLevels] ++
          (if sp then [Step.plotWaveform, Step.plotSpectrogram] else [])) ∧
    Step.detectHarmonics ∉ (perform_complete_analysis info data sp sf).trace ∧
    Step.applyFilter ∉ (perform_complete_analysis info data sp sf).trace := by
  refine ⟨?_, ?_, ?_⟩
  · intro fi wd lv hi hd hl
    subst hi; subst hd
    simp [perform_complete_analysis, hl]
  all_goals
    rcases info with e | fi
    · simp [perform_complete_analysis]
    · rcases data with e | wd
      · simp [perform_complete_analysis]
      · rcases h : analyze_audio_levels wd.waveform with e | lv <;>
          rcases sp <;> simp [perform_complete_analysis, h]

/-- C2 counterexample: on a fully successful run with plotting enabled, the
trace of `perform_complete_analysis` does not contain the claimed
load → metrics → detect-harmonics sequence, because harmonic detection is
never executed. -/
theorem perform_complete_analysis_pipeline_counterexample :
    ¬ [Step.loadWaveData, Step.analyzeAudioLevels, Step.detectHarmonics].Sublist
        (perform_complete_analysis (.ok ⟨16, 16, 1, 2, 1, "Mono"⟩)
          (.ok ⟨[1], 16, 1, 1⟩) true false).trace := by
  intro hsub
  obtain ⟨r, hr⟩ := analyze_one
  have hmem : Step.detectHarmonics ∈
      (perform_complete_analysis (.ok ⟨16, 16, 1, 2, 1, "Mono"⟩)
        (.ok ⟨[1], 16, 1, 1⟩) true false).trace :=
    hsub.subset (by simp)
  simp [perform_complete_analysis, hr] at hmem

/-- C2 witness: on a concrete successful run with plotting enabled, the
trace is exactly info, load, levels, waveform plot, spectrogram plot. -/
theorem perform_complete_analysis_pipeline_witness :
    (perform_complete_analysis (.ok ⟨16, 16, 1, 2, 1, "Mono"⟩)
        (.ok ⟨[1], 16, 1, 1⟩) true false).trace =
      [Step.getWaveInfo, Step.loadWaveData, Step.analyzeAudioLevels] ++
        [Step.plotWaveform, Step.plotSpectrogram] := by
  obtain ⟨r, hr⟩ := analyze_one
  exact (perform_complete_analysis_pipeline (.ok ⟨16, 16, 1, 2, 1, "Mono"⟩)
    (.ok ⟨[1], 16, 1, 1⟩) true false).1 _ _ r rfl rfl hr

/-! ## C8: detect_db_range -/

/-- C8: `detect_db_range` raises on every all-zero waveform (the reduction
over the empty array of nonzero samples — or over the empty waveform itself
— fails), and `analyze_audio_levels` therefore raises too; on every
waveform with at least one nonzero sample it succeeds and returns
`dynamic_range = max_db - min_db ≥ 0`. -/
theorem detect_db_range_spec (w : List ℝ) :
    ((∀ x ∈ w, x = 0) →
      (∃ e, detect_db_range w = .error e) ∧ ∃ e, analyze_audio_levels w = .error e) ∧
    ((∃ x ∈ w, x ≠ 0) → ∃ r, detect_db_range w = .ok r ∧
      r.dynamic_range = r.max_db - r.min_db ∧ 0 ≤ r.dynamic_range) := by
  constructor
  · intro hz
    have hfil : w.filter (fun x => x ≠ 0) = [] := by
      rw [List.filter_eq_nil_iff]
      intro a ha
      simpa using hz a ha
    rcases w with _ | ⟨x, xs⟩
    · exact ⟨⟨_, rfl⟩, ⟨_, rfl⟩⟩
    · constructor
      · refine ⟨"zero-size array to reduction operation minimum", ?_⟩
        simp only [detect_db_range, np_max, np_min, List.map_cons, List.max?_cons',
          hfil, List.map_nil, List.min?_nil]
      · refine ⟨"zero-size array to reduction operation minimum", ?_⟩
        simp only [analyze_audio_levels, detect_db_range, np_max, np_min, List.map_cons,
          List.max?_cons', List.min?_cons', hfil, List.map_nil, List.min?_nil]
  · rintro ⟨x, hx, hx0⟩
    rcases hM : (w.map (fun y => |y|)).max? with _ | M
    · rw [List.max?_eq_none_iff] at hM
      have := List.mem_map_of_mem (fun y => |y|) hx
      simp [hM] at this
    have hxfil : x ∈ w.filter (fun y => y ≠ 0) := by
      rw [List.mem_filter]
      exact ⟨hx, by simpa using hx0⟩
    rcases hm : ((w.filter (fun y => y ≠ 0)).map (fun y => |y|)).min? with _ | m
    · rw [List.min?_eq_none_iff] at hm
      have hmem2 := List.mem_map_of_mem (fun y => |y|) hxfil
      rw [hm] at hmem2
      simp at hmem2
    obtain ⟨hMmem, hMub⟩ := real_max?_eq_some_iff.mp hM
    obtain ⟨hmmem, hmlb⟩ := real_min?_eq_some_iff.mp hm
    obtain ⟨y, hy, hym⟩ := List.mem_map.mp hmmem
    have hy0 : y ≠ 0 := by simpa using (List.mem_filter.mp hy).2
    have hm0 : 0 < m := hym ▸ abs_pos.mpr hy0
    have hmM : m ≤ M := by
      have hyW : y ∈ w := (List.mem_filter.mp hy).1
      have : |y| ≤ M := hMub _ (List.mem_map_of_mem _ hyW)
      exact hym ▸ this
    have hM0 : 0 < M := lt_of_lt_of_le hm0 hmM
    refine ⟨⟨((20 * Real.logb 10 (M / 1e-6) : ℝ) : EReal),
      ((20 * Real.logb 10 (m / 1e-6) : ℝ) : EReal),
      ((20 * Real.logb 10 (M / 1e-6) : ℝ) : EReal) -
        ((20 * Real.logb 10 (m / 1e-6) : ℝ) : EReal)⟩, ?_, rfl, ?_⟩
    · simp only [detect_db_range, np_max, np_min, hM, hm]
      rw [if_pos hM0, if_pos hm0, if_pos (EReal.coe_ne_bot _)]
    · rw [← EReal.coe_sub, EReal.coe_nonneg]
      have hlog : Real.logb 10 (m / 1e-6) ≤ Real.logb 10 (M / 1e-6) :=
        Real.logb_le_logb_of_le (by norm_num) (by positivity)
          ((div_le_div_iff_of_pos_right (by norm_num)).mpr hmM)
      linarith

/-- C8 witness: `detect_db_range` fails on the all-zero waveform `[0]` and
succeeds with nonnegative dynamic range on `[1]`. -/
theorem detect_db_range_witness :
    (∃ e, detect_db_range [(0:ℝ)] = .error e) ∧
    ∃ r, detect_db_range [(1:ℝ)] = .ok r ∧
      r.dynamic_range = r.max_db - r.min_db ∧ 0 ≤ r.dynamic_range :=
  ⟨((detect_db_range_spec [0]).1 (by simp)).1,
   (detect_db_range_spec [1]).2 ⟨1, by simp, by norm_num⟩⟩

/-! ## C9: normalize_waveform -/

/-- C9 (amended): for every waveform with at least one nonzero sample,
`normalize_waveform` succeeds, every element of the result lies in
`[-1, 1]`, and the maximum absolute value of the result is exactly 1; a
nonempty all-zero waveform is returned unchanged (the empty waveform
instead raises, since `np.max` rejects zero-size arrays). -/
theorem normalize_waveform_spec (w : List ℝ) :
    ((∃ x ∈ w, x ≠ 0) → ∃ r, normalize_waveform w = .ok r ∧
      (∀ y ∈ r, -1 ≤ y ∧ y ≤ 1) ∧ (r.map (fun y => |y|)).max? = some 1) ∧
    (w ≠ [] → (∀ x ∈ w, x = 0) → normalize_waveform w = .ok w) := by
  constructor
  · rintro ⟨x, hx, hx0⟩
    rcases hM : (w.map (fun y => |y|)).max? with _ | M
    · rw [List.max?_eq_none_iff] at hM
      have := List.mem_map_of_mem (fun y => |y|) hx
      simp [hM] at this
    obtain ⟨hMmem, hMub⟩ := real_max?_eq_some_iff.mp hM
    have hM0 : 0 < M := by
      have h1 : |x| ≤ M := hMub _ (List.mem_map_of_mem _ hx)
      have h2 := abs_pos.mpr hx0
      linarith
    refine ⟨w.map (fun y => y / M), ?_, ?_, ?_⟩
    · simp [normalize_waveform, np_max, hM, hM0]
    · intro y hy
      obtain ⟨z, hz, rfl⟩ := List.mem_map.mp hy
      have hzM : |z| ≤ M := hMub _ (List.mem_map_of_mem _ hz)
      have habs : |z / M| ≤ 1 := by
        rw [abs_div, abs_of_pos hM0]
        exact (div_le_one hM0).mpr hzM
      exact abs_le.mp habs
    · rw [real_max?_eq_some_iff]
      constructor
      · obtain ⟨z, hz, hzM⟩ := List.mem_map.mp hMmem
        refine List.mem_map.mpr ⟨z / M, List.mem_map.mpr ⟨z, hz, rfl⟩, ?_⟩
        rw [abs_div, abs_of_pos hM0, hzM, div_self (ne_of_gt hM0)]
      · intro b hb
        obtain ⟨y, hy, rfl⟩ := List.mem_map.mp hb
        obtain ⟨z, hz, rfl⟩ := List.mem_map.mp hy
        rw [abs_div, abs_of_pos hM0]
        exact (div_le_one hM0).mpr (hMub _ (List.mem_map_of_mem _ hz))
  · intro hne hz
    rcases w with _ | ⟨x, xs⟩
    · exact absurd rfl hne
    have hM : ((x :: xs).map (fun y => |y|)).max? = some 0 := by
      rw [real_max?_eq_some_iff]
      constructor
      · exact List.mem_map.mpr ⟨x, List.mem_cons_self x xs,
          by simp [hz x (List.mem_cons_self x xs)]⟩
      · intro b hb
        obtain ⟨y, hy, rfl⟩ := List.mem_map.mp hb
        simp [hz y hy]
    have hnp : np_max ((x :: xs).map (fun y => |y|)) = .ok 0 := by
      simp only [np_max, hM]
    simp only [normalize_waveform, hnp]
    rw [if_neg (lt_irrefl 0)]

/-- C9 counterexample: the empty waveform is (vacuously) all-zero, yet
`normalize_waveform` does not return it unchanged — it raises the numpy
zero-size reduction error. -/
theorem normalize_waveform_empty_counterexample :
    normalize_waveform ([] : List ℝ) ≠ .ok [] ∧
    normalize_waveform ([] : List ℝ) =
      .error "zero-size array to reduction operation maximum" :=
  ⟨by simp [normalize_waveform, np_max], rfl⟩

/-- C9 witness: the amended statement evaluated at `[2]` (nonzero sample)
and `[0]` (nonempty all-zero). -/
theorem normalize_waveform_witness :
    (∃ r, normalize_waveform [(2:ℝ)] = .ok r ∧
      (∀ y ∈ r, -1 ≤ y ∧ y ≤ 1) ∧ (r.map (fun y => |y|)).max? = some 1) ∧
    normalize_waveform [(0:ℝ)] = .ok [0] :=
  ⟨(normalize_waveform_spec [2]).1 ⟨2, by simp, by norm_num⟩,
   (normalize_waveform_spec [0]).2 (by simp) (fun x hx => by simpa using hx)⟩

/-! ## C5: load_wave_data channel handling -/

/-- `audio_data[0::2]` has one element per pair (rounding up). -/
lemma everyOther_length {α : Type} : ∀ l : List α,
    (everyOther l).length = (l.length + 1) / 2
  | [] => by simp [everyOther]
  | [_] => by simp [everyOther]
  | _ :: _ :: rest => by
      simp only [everyOther, List.length_cons]
      rw [everyOther_length rest]
      omega

/-- `audio_data[0::2]` keeps exactly the even-indexed elements. -/
lemma everyOther_getD {α : Type} (d : α) : ∀ (l : List α) (i : ℕ),
    (everyOther l).getD i d = l.getD (2 * i) d
  | [], i => by simp [everyOther]
  | [x], i => by
      rcases i with _ | n
      · rfl
      · have h1 : (1:ℕ) ≤ 2 * (n + 1) := by omega
        simp [everyOther, List.getD, List.getElem?_eq_none, h1]
  | x :: y :: rest, i => by
      rcases i with _ | n
      · rfl
      · calc (everyOther (x :: y :: rest)).getD (n + 1) d
            = (everyOther rest).getD n d := by simp [everyOther]
          _ = rest.getD (2 * n) d := everyOther_getD d rest n
          _ = (x :: y :: rest).getD (2 * (n + 1)) d := by
              have h2 : 2 * (n + 1) = 2 * n + 1 + 1 := by ring
              rw [h2, List.getD_cons_succ, List.getD_cons_succ]

/-- C5 (amended): for every 16-bit WAV file — the only sample width the
hardcoded int16 decode reads faithfully — `load_wave_data` keeps every
sample of a mono file (one per frame), and for a stereo file it returns
exactly one sample per frame, namely the left channel (the even-indexed
interleaved samples).  The `sample_width = 2` hypothesis makes the int16
assumption explicit: it is what turns the decoded buffer length
`frames * channels * sample_width / 2` into one decoded sample per channel
per frame. -/
theorem load_waveform_spec (channels frames sample_width : ℕ) (data : List ℤ)
    (hwidth : sample_width = 2)
    (hlen : data.length = frombuffer_int16_count frames channels sample_width) :
    (channels = 1 → load_waveform channels data = data ∧
      (load_waveform channels data).length = frames) ∧
    (channels = 2 → (load_waveform channels data).length = frames ∧
      ∀ i, i < frames →
        (load_waveform channels data).getD i 0 = data.getD (2 * i) 0) := by
  subst hwidth
  rw [frombuffer_int16_count] at hlen
  have hlen' : data.length = channels * frames := by
    rw [hlen, Nat.mul_div_cancel _ (by norm_num : 0 < 2), Nat.mul_comm]
  constructor
  · rintro rfl
    have hld : load_waveform 1 data = data := by simp [load_waveform]
    refine ⟨hld, ?_⟩
    rw [hld]
    omega
  · rintro rfl
    have hld : load_waveform 2 data = everyOther data := by simp [load_waveform]
    refine ⟨?_, ?_⟩
    · rw [hld, everyOther_length]
      omega
    · intro i _
      rw [hld]
      exact everyOther_getD 0 data i

/-- C5 counterexample, two failing inputs.  First, a one-frame three-channel
16-bit file (decoded samples `[1, 2, 3]`) yields a waveform of two samples,
not one sample per frame.  Second, an 8-bit mono file with two frames has
two raw bytes, which the hardcoded int16 decode reinterprets as the single
sample `[7]`, so the returned waveform has one sample for two frames.
Together they refute the claim for every WAV file and force the amendment
to 16-bit mono/stereo files. -/
theorem load_waveform_counterexample :
    (([(1:ℤ), 2, 3].length = 3 * 1) ∧ (load_waveform 3 [1, 2, 3]).length ≠ 1) ∧
    (frombuffer_int16_count 2 1 1 = 1 ∧ [(7:ℤ)].length = 1 ∧
      (load_waveform 1 [(7:ℤ)]).length ≠ 2) := by
  refine ⟨⟨rfl, ?_⟩, rfl, rfl, ?_⟩
  · simp [load_waveform, everyOther]
  · simp [load_waveform]

/-- C5 witness: two 16-bit stereo frames (decoded samples `[1, 2, 3, 4]`)
produce the two-sample left channel `[1, 3]`. -/
theorem load_waveform_witness :
    (load_waveform 2 [(1:ℤ), 2, 3, 4]).length = 2 ∧
    (load_waveform 2 [(1:ℤ), 2, 3, 4]).getD 0 0 = [(1:ℤ), 2, 3, 4].getD (2 * 0) 0 ∧
    (load_waveform 2 [(1:ℤ), 2, 3, 4]).getD 1 0 = [(1:ℤ), 2, 3, 4].getD (2 * 1) 0 :=
  ⟨((load_waveform_spec 2 2 2 [(1:ℤ), 2, 3, 4] rfl rfl).2 rfl).1,
   ((load_waveform_spec 2 2 2 [(1:ℤ), 2, 3, 4] rfl rfl).2 rfl).2 0 (by norm_num),
   ((load_waveform_spec 2 2 2 [(1:ℤ), 2, 3, 4] rfl rfl).2 rfl).2 1 (by norm_num)⟩

/-! ## C7: statelessness of the analysis computations -/

/-- C7: the analysis computations keep no persistent state: both
`analyze_audio_levels` and `detect_harmonics` are pure functions of their
waveform argument (the embedding of the source, which mutates nothing and
reads no globals), so two runs on equal waveforms return equal results. -/
theorem analysis_stateless (w₁ w₂ : List ℝ) (h : w₁ = w₂) :
    analyze_audio_levels w₁ = analyze_audio_levels w₂ ∧
      ∀ sr n, detect_harmonics w₁ sr n = detect_harmonics w₂ sr n := by
  subst h
  exact ⟨rfl, fun _ _ => rfl⟩

/-- C7 witness: two runs on the waveform `[1]` agree. -/
theorem analysis_stateless_witness :
    analyze_audio_levels [(1:ℝ)] = analyze_audio_levels [(1:ℝ)] :=
  (analysis_stateless [(1:ℝ)] [(1:ℝ)] rfl).1

/-! ## C1: detect_harmonics

The evaluation input `w16` (2 Hz plus 5 Hz cosines at a 16 Hz rate) is
pushed through the whole embedded pipeline: the DFT is evaluated by root-of
-unity orthogonality, and the peak finder, sorter and selector are then
evaluated on the resulting concrete magnitude spectrum. -/

/-- Orthogonality of the sixteenth roots of unity: the sum of
`exp(2πi·j·n/16)` over one period is 16 when `16 ∣ j` and 0 otherwise. -/
lemma sum_exp_root (j : ℤ) :
    ∑ n ∈ Finset.range 16, Complex.exp (2 * (Real.pi : ℂ) * Complex.I * j * n / 16) =
      if (16:ℤ) ∣ j then (16:ℂ) else 0 := by
  have hrw : ∀ n : ℕ, Complex.exp (2 * (Real.pi : ℂ) * Complex.I * j * n / 16) =
      Complex.exp (2 * (Real.pi : ℂ) * Complex.I * j / 16) ^ n := by
    intro n
    rw [← Complex.exp_nat_mul]
    congr 1
    ring
  by_cases hdvd : (16:ℤ) ∣ j
  · obtain ⟨c, rfl⟩ := hdvd
    have h1 : ∀ n ∈ Finset.range 16,
        Complex.exp (2 * (Real.pi:ℂ) * Complex.I * ((16 * c : ℤ) : ℂ) * n / 16) = 1 := by
      intro n _
      have harg : 2 * (Real.pi:ℂ) * Complex.I * ((16 * c : ℤ) : ℂ) * n / 16 =
          ((c * n : ℤ) : ℂ) * (2 * (Real.pi:ℂ) * Complex.I) := by
        push_cast
        ring
      rw [harg, Complex.exp_int_mul_two_pi_mul_I]
    rw [Finset.sum_congr rfl h1]
    simp
  · have hx1 : Complex.exp (2 * (Real.pi:ℂ) * Complex.I * j / 16) ≠ 1 := by
      intro h1
      rw [Complex.exp_eq_one_iff] at h1
      obtain ⟨m, hm⟩ := h1
      apply hdvd
      refine ⟨m, ?_⟩
      have h2pi : (2 * (Real.pi:ℂ) * Complex.I) ≠ 0 := by
        simp [Real.pi_ne_zero, Complex.I_ne_zero]
      have hm' : (2 * (Real.pi:ℂ) * Complex.I) * ((j:ℂ) / 16) =
          (2 * (Real.pi:ℂ) * Complex.I) * m := by
        linear_combination hm
      have hj : (j:ℂ) / 16 = m := mul_left_cancel₀ h2pi hm'
      have hj' : (j:ℂ) = 16 * m := by
        linear_combination 16 * hj
      exact_mod_cast hj'
    rw [Finset.sum_congr rfl (fun n _ => hrw n), geom_sum_eq hx1]
    have hxn : Complex.exp (2 * (Real.pi:ℂ) * Complex.I * j / 16) ^ 16 = 1 := by
      rw [← Complex.exp_nat_mul]
      have harg : ((16:ℕ):ℂ) * (2 * (Real.pi:ℂ) * Complex.I * j / 16) =
          (j:ℂ) * (2 * (Real.pi:ℂ) * Complex.I) := by
        push_cast
        ring
      rw [harg, Complex.exp_int_mul_two_pi_mul_I]
    rw [hxn]
    simp [hdvd]

/-- The counterexample waveform has sixteen samples. -/
lemma w16_length : w16.length = 16 := by
  rw [w16, List.length_map, List.length_range]

/-- The samples of the counterexample waveform. -/
lemma w16_getD (n : ℕ) (hn : n < 16) :
    w16.getD n 0 =
      2 * Real.cos (2 * Real.pi * 2 * n / 16) + Real.cos (2 * Real.pi * 5 * n / 16) := by
  rw [w16, List.getD_eq_getElem _ _ (by rw [List.length_map, List.length_range]; exact hn),
    List.getElem_map, List.getElem_range]

/-- Euler form of the cosine. -/
lemma cos_as_exp (z : ℂ) :
    Complex.cos z = (Complex.exp (z * Complex.I) + Complex.exp (-z * Complex.I)) / 2 := by
  rw [← Complex.two_cos]
  ring

/-- The DFT of `w16` on the positive-frequency bins: 16 at bin 2, 8 at bin
5 and 0 elsewhere. -/
lemma fftEntry_w16 (k : ℕ) (hk1 : 1 ≤ k) (hk7 : k ≤ 7) :
    fftEntry w16 k = if k = 2 then 16 else if k = 5 then 8 else 0 := by
  have hkey : ∀ n ∈ Finset.range 16,
      ((w16.getD n 0 : ℝ) : ℂ) * Complex.exp (-(2 * (Real.pi : ℂ) * Complex.I) * k * n / 16) =
        Complex.exp (2 * (Real.pi : ℂ) * Complex.I * ((2 - (k:ℤ) : ℤ) : ℂ) * n / 16) +
        Complex.exp (2 * (Real.pi : ℂ) * Complex.I * ((-2 - (k:ℤ) : ℤ) : ℂ) * n / 16) +
        (Complex.exp (2 * (Real.pi : ℂ) * Complex.I * ((5 - (k:ℤ) : ℤ) : ℂ) * n / 16) +
         Complex.exp (2 * (Real.pi : ℂ) * Complex.I * ((-5 - (k:ℤ) : ℤ) : ℂ) * n / 16)) / 2 := by
    intro n hn
    rw [w16_getD n (Finset.mem_range.mp hn)]
    push_cast
    rw [cos_as_exp, cos_as_exp]
    have e1 : Complex.exp (2 * (Real.pi:ℂ) * Complex.I * (2 - (k:ℂ)) * n / 16) =
        Complex.exp ((2 * (Real.pi:ℂ) * 2 * n / 16) * Complex.I) *
          Complex.exp (-(2 * (Real.pi:ℂ) * Complex.I) * k * n / 16) := by
      rw [← Complex.exp_add]
      congr 1
      ring
    have e2 : Complex.exp (2 * (Real.pi:ℂ) * Complex.I * (-2 - (k:ℂ)) * n / 16) =
        Complex.exp (-(2 * (Real.pi:ℂ) * 2 * n / 16) * Complex.I) *
          Complex.exp (-(2 * (Real.pi:ℂ) * Complex.I) * k * n / 16) := by
      rw [← Complex.exp_add]
      congr 1
      ring
    have e3 : Complex.exp (2 * (Real.pi:ℂ) * Complex.I * (5 - (k:ℂ)) * n / 16) =
        Complex.exp ((2 * (Real.pi:ℂ) * 5 * n / 16) * Complex.I) *
          Complex.exp (-(2 * (Real.pi:ℂ) * Complex.I) * k * n / 16) := by
      rw [← Complex.exp_add]
      congr 1
      ring
    have e4 : Complex.exp (2 * (Real.pi:ℂ) * Complex.I * (-5 - (k:ℂ)) * n / 16) =
        Complex.exp (-(2 * (Real.pi:ℂ) * 5 * n / 16) * Complex.I) *
          Complex.exp (-(2 * (Real.pi:ℂ) * Complex.I) * k * n / 16) := by
      rw [← Complex.exp_add]
      congr 1
      ring
    rw [e1, e2, e3, e4]
    ring
  have hsum : fftEntry w16 k =
      ∑ n ∈ Finset.range 16,
        ((w16.getD n 0 : ℝ) : ℂ) *
          Complex.exp (-(2 * (Real.pi : ℂ) * Complex.I) * k * n / 16) := by
    simp only [fftEntry, w16_length, Nat.cast_ofNat]
  rw [hsum, Finset.sum_congr rfl hkey, Finset.sum_add_distrib, Finset.sum_add_distrib,
    ← Finset.sum_div, Finset.sum_add_distrib, sum_exp_root (2 - (k:ℤ)),
    sum_exp_root (-2 - (k:ℤ)), sum_exp_root (5 - (k:ℤ)), sum_exp_root (-5 - (k:ℤ))]
  interval_cases k <;> norm_num

lemma range16 : List.range 16 = [0, 1, 2, 3, 4, 5, 6, 7, 8, 9, 10, 11, 12, 13, 14, 15] := by
  rfl

/-- `np.fft.fftfreq 16 (1/16)`: integer frequencies 0..7 then -8..-1. -/
lemma fftfreq_16 : fftfreq 16 (1 / 16) =
    [0, 1, 2, 3, 4, 5, 6, 7, -8, -7, -6, -5, -4, -3, -2, -1] := by
  rw [fftfreq, range16]
  norm_num

lemma abs_fftEntry_1 : Complex.abs (fftEntry w16 1) = 0 := by
  rw [fftEntry_w16 1 (by norm_num) (by norm_num)]
  norm_num

lemma abs_fftEntry_2 : Complex.abs (fftEntry w16 2) = 16 := by
  rw [fftEntry_w16 2 (by norm_num) (by norm_num)]
  norm_num [Complex.abs_ofNat]

lemma abs_fftEntry_3 : Complex.abs (fftEntry w16 3) = 0 := by
  rw [fftEntry_w16 3 (by norm_num) (by norm_num)]
  norm_num

lemma abs_fftEntry_4 : Complex.abs (fftEntry w16 4) = 0 := by
  rw [fftEntry_w16 4 (by norm_num) (by norm_num)]
  norm_num

lemma abs_fftEntry_5 : Complex.abs (fftEntry w16 5) = 8 := by
  rw [fftEntry_w16 5 (by norm_num) (by norm_num)]
  norm_num [Complex.abs_ofNat]

lemma abs_fftEntry_6 : Complex.abs (fftEntry w16 6) = 0 := by
  rw [fftEntry_w16 6 (by norm_num) (by norm_num)]
  norm_num

lemma abs_fftEntry_7 : Complex.abs (fftEntry w16 7) = 0 := by
  rw [fftEntry_w16 7 (by norm_num) (by norm_num)]
  norm_num

/-- The positive-frequency spectrum of `w16` at a 16 Hz sample rate. -/
lemma posPairs_w16 : posPairs w16 16 =
    [(1, 0), (2, 16), (3, 0), (4, 0), (5, 8), (6, 0), (7, 0)] := by
  rw [posPairs, w16_length, fftfreq_16, npfft, w16_length, range16]
  simp only [List.map_cons, List.map_nil, List.zip_cons_cons, List.zip_nil_right]
  norm_num [List.filter, abs_fftEntry_1, abs_fftEntry_2, abs_fftEntry_3, abs_fftEntry_4,
    abs_fftEntry_5, abs_fftEntry_6, abs_fftEntry_7]

lemma posMags_w16 : posMags w16 16 = [0, 16, 0, 0, 8, 0, 0] := by
  rw [posMags, posPairs_w16]
  norm_num

lemma posFreqs_w16 : posFreqs w16 16 = [1, 2, 3, 4, 5, 6, 7] := by
  rw [posFreqs, posPairs_w16]
  norm_num

lemma np_max_lit : np_max [(0:ℝ), 16, 0, 0, 8, 0, 0] = .ok 16 := by
  simp [np_max, List.max?, List.foldl, max_def]
  norm_num

/-- scipy find_peaks on the spectrum of `w16`: local maxima at positions 1
and 4 (frequencies 2 and 5). -/
lemma lm_eval : localMaxima [(0:ℝ), 16, 0, 0, 8, 0, 0] = [1, 4] := by
  norm_num [localMaxima, lmScan, plateauEnd]

/-- Full evaluation of `detect_harmonics` on `w16`: peaks at 2 Hz (0 dB)
and 5 Hz (-6 dB), in descending magnitude order. -/
lemma detect_harmonics_w16 :
    detect_harmonics w16 16 10 =
      .ok [⟨2, 20 * Real.logb 10 (16 / 16 + 1e-10)⟩,
           ⟨5, 20 * Real.logb 10 (8 / 16 + 1e-10)⟩] := by
  simp only [detect_harmonics, posMags_w16, posFreqs_w16, np_max_lit, lm_eval]
  norm_num [argsort, isortAsc, insertAsc, List.enum, List.enumFrom, List.filter]
  exact fun h => absurd h (List.cons_ne_nil 1 [4])

/-- Membership through `insertAsc`. -/
lemma mem_insertAsc (p q : ℕ × ℝ) : ∀ l : List (ℕ × ℝ),
    (q ∈ insertAsc p l ↔ q = p ∨ q ∈ l)
  | [] => by simp [insertAsc]
  | r :: rs => by
      simp only [insertAsc]
      rcases lt_or_le r.2 p.2 with h | h
      · rw [if_pos h]
        simp only [List.mem_cons, mem_insertAsc p q rs]
        tauto
      · rw [if_neg (not_lt.mpr h)]
        simp only [List.mem_cons]

/-- `isortAsc` permutes its input (membership form). -/
lemma mem_isortAsc (q : ℕ × ℝ) : ∀ l : List (ℕ × ℝ), (q ∈ isortAsc l ↔ q ∈ l)
  | [] => Iff.rfl
  | p :: ps => by
      simp only [isortAsc]
      rw [mem_insertAsc p q (isortAsc ps), mem_isortAsc q ps]
      simp [List.mem_cons]

/-- Indices produced by `argsort` are valid indices of its input. -/
lemma argsort_mem_lt {l : List ℝ} {i : ℕ} (h : i ∈ argsort l) : i < l.length := by
  simp only [argsort] at h
  obtain ⟨⟨a, b⟩, hq, hqi⟩ := List.mem_map.mp h
  rw [mem_isortAsc, List.enum_eq_zip_range] at hq
  have h1 : a ∈ List.range l.length := (List.of_mem_zip hq).1
  rw [List.mem_range] at h1
  simpa [← hqi] using h1

/-- C1 (amended): every entry returned by `detect_harmonics` is a spectral
peak — its frequency sits at a positive FFT frequency whose magnitude is a
local maximum at least 1% of the maximum magnitude.  The entries need not
lie at integer multiples of the lowest detected peak frequency: the
function never checks any harmonic relation. -/
theorem detect_harmonics_entries_are_peaks (w : List ℝ) (sr : ℝ) (num : ℕ)
    (hs : List Harmonic) (hok : detect_harmonics w sr num = .ok hs) :
    ∀ h ∈ hs, ∃ maxMag, np_max (posMags w sr) = .ok maxMag ∧
      ∃ i ∈ localMaxima (posMags w sr),
        maxMag * 0.01 ≤ (posMags w sr).getD i 0 ∧
        h.frequency = (posFreqs w sr).getD i 0 := by
  intro h hh
  rcases hnp : np_max (posMags w sr) with e | maxMag
  · simp only [detect_harmonics, hnp] at hok
    exact Except.noConfusion hok
  · simp only [detect_harmonics, hnp] at hok
    by_cases hpk : (localMaxima (posMags w sr)).filter
        (fun i => maxMag * 0.01 ≤ (posMags w sr).getD i 0) = []
    · rw [if_pos hpk] at hok
      injection hok with he
      subst he
      exact absurd hh (List.not_mem_nil h)
    · rw [if_neg hpk] at hok
      injection hok with he
      subst he
      obtain ⟨j, hj, rfl⟩ := List.mem_map.mp hh
      have hjrev := List.mem_of_mem_take hj
      rw [List.mem_reverse] at hjrev
      have hjlt : j < ((localMaxima (posMags w sr)).filter
          (fun i => maxMag * 0.01 ≤ (posMags w sr).getD i 0)).length := by
        have h2 := argsort_mem_lt hjrev
        simpa using h2
      have hipeaks : ((localMaxima (posMags w sr)).filter
            (fun i => maxMag * 0.01 ≤ (posMags w sr).getD i 0)).getD j 0 ∈
          (localMaxima (posMags w sr)).filter
            (fun i => maxMag * 0.01 ≤ (posMags w sr).getD i 0) := by
        rw [List.getD_eq_getElem _ _ hjlt]
        exact List.getElem_mem _
      obtain ⟨hlm, hcond⟩ := List.mem_filter.mp hipeaks
      exact ⟨maxMag, rfl, _, hlm, of_decide_eq_true hcond, rfl⟩

/-- C1 witness: the amended statement at the 5 Hz entry that
`detect_harmonics` returns on `w16`. -/
theorem detect_harmonics_entries_are_peaks_witness :
    ∃ maxMag, np_max (posMags w16 16) = .ok maxMag ∧
      ∃ i ∈ localMaxima (posMags w16 16),
        maxMag * 0.01 ≤ (posMags w16 16).getD i 0 ∧
        (⟨5, 20 * Real.logb 10 (8 / 16 + 1e-10)⟩ : Harmonic).frequency =
          (posFreqs w16 16).getD i 0 :=
  detect_harmonics_entries_are_peaks w16 16 10 _ detect_harmonics_w16 _ (by simp)

/-- C1 counterexample: on sixteen samples of a 2 Hz plus 5 Hz cosine mix at
a 16 Hz sample rate, `detect_harmonics` returns entries at 2 Hz and 5 Hz;
the lowest detected peak frequency is 2 Hz, and the 5 Hz entry lies at no
integer multiple of it. -/
theorem detect_harmonics_counterexample :
    ∃ hs, detect_harmonics w16 16 10 = .ok hs ∧
      ∃ h ∈ hs, ∀ z : ℤ, h.frequency ≠ z * fundamentalFreq hs := by
  refine ⟨_, detect_harmonics_w16, ?_⟩
  refine ⟨⟨5, 20 * Real.logb 10 (8 / 16 + 1e-10)⟩, by simp, ?_⟩
  intro z hz
  have hf : fundamentalFreq [⟨2, 20 * Real.logb 10 (16 / 16 + 1e-10)⟩,
      ⟨5, 20 * Real.logb 10 (8 / 16 + 1e-10)⟩] = 2 := by
    simp [fundamentalFreq, List.min?, List.foldl, min_def]
    norm_num
  rw [hf] at hz
  have hz2 : (5:ℝ) = z * 2 := hz
  have hz' : (5:ℤ) = z * 2 := by exact_mod_cast hz2
  omega

end SoundWave
